import Mathlib

/-!
# Verification of the lunar-day interval extraction and resolution engine

Shallow embedding of the core of `src/main.py` (a FastAPI service that
scrapes a lunar-calendar page, extracts "lunar day" intervals with a regex,
resolves Russian month names to absolute MSK instants, picks the interval
containing "now", and caches results in a `cachetools.TTLCache`).

Modelling conventions:
* Normalized page text (`re.sub(r"\s+", " ", ...)` output) is a `String`;
  we tokenize it on single spaces and classify each space-separated chunk.
  `RE_INTERVAL` only ever matches at such chunk boundaries in normalized
  text (every `\s+` in the pattern corresponds to the single spaces the
  normalizer produces, and the dash alternative `\s*[—-]\s*` appears as its
  own chunk there), so `finditer` is embedded as a left-to-right,
  non-overlapping scan over the token list.
* Python `datetime(year, m, d, hh, mm, tzinfo=MSK)` values all carry the
  same fixed UTC+3 offset, so their comparison order is lexicographic on
  `(year, month, day, hour, minute)`.  We embed an instant as the integer
  `dtKey`, which is strictly monotone in that lexicographic order for the
  component ranges `datetime` accepts (month ≤ 12, day ≤ 31, hour ≤ 23,
  minute ≤ 59).  Range validation performed by `datetime` itself is not
  modelled.
* `fastapi.HTTPException` raises are embedded as `Except ApiError`;
  the `isoformat`/`fromisoformat` round trip between `extract_intervals`
  and `pick_current` is the identity on the instant and is elided.
-/

deriving instance DecidableEq for Except

namespace MoonApi

/-- One space-separated chunk of normalized page text, classified the way
`RE_INTERVAL`'s subpatterns see it: a run of digits (`\d+`), a run of
Cyrillic letters (`[А-Яа-яЁё]+`), a time (`\d{1,2}:\d{2}`), a dash
(`[—-]`), or anything else (never matched by the pattern). -/
inductive Tok where
  | num (s : String)
  | word (s : String)
  | time (s : String)
  | dash
  | other (s : String)
deriving DecidableEq, Repr

/-- Digit character, as in the regex class `\d`. -/
def isDigitCh (c : Char) : Bool :=
  '0' ≤ c && c ≤ '9'

/-- Character class `[А-Яа-яЁё]` of `RE_INTERVAL`. -/
def isCyr (c : Char) : Bool :=
  ('А' ≤ c && c ≤ 'я') || c = 'Ё' || c = 'ё'

/-- Shape `\d{1,2}:\d{2}` of the time groups of `RE_INTERVAL`. -/
def timeShape (cs : List Char) : Bool :=
  match cs.span (fun c => c ≠ ':') with
  | (a, b) =>
    match b with
    | ':' :: m =>
        decide (1 ≤ a.length) && decide (a.length ≤ 2) && a.all isDigitCh &&
        decide (m.length = 2) && m.all isDigitCh
    | _ => false

/-- Classify one chunk of normalized text. -/
def classify (cs : List Char) : Tok :=
  if cs ≠ [] && cs.all isDigitCh then Tok.num (String.mk cs)
  else if cs = ['—'] || cs = ['-'] then Tok.dash
  else if timeShape cs then Tok.time (String.mk cs)
  else if cs ≠ [] && cs.all isCyr then Tok.word (String.mk cs)
  else Tok.other (String.mk cs)

/-- Split a character list on spaces, dropping empty chunks (normalized
text has single spaces, so this is exact). -/
def splitSpacesAux : List Char → List Char → List (List Char)
  | [], cur => if cur = [] then [] else [cur.reverse]
  | ' ' :: rest, cur =>
      if cur = [] then splitSpacesAux rest []
      else cur.reverse :: splitSpacesAux rest []
  | c :: rest, cur => splitSpacesAux rest (c :: cur)

/-- Tokenize normalized page text. -/
def tokenize (s : String) : List Tok :=
  (splitSpacesAux s.data []).map classify

/-- Cyrillic/ASCII case folding, as Python `str.lower()` acts on the
month-name and keyword alphabet used here ('А'-'Я' → 'а'-'я', 'Ё' → 'ё',
'A'-'Z' → 'a'-'z'). -/
def lowerChar (c : Char) : Char :=
  if 'А' ≤ c && c ≤ 'Я' then Char.ofNat (c.toNat + 32)
  else if c = 'Ё' then 'ё'
  else if 'A' ≤ c && c ≤ 'Z' then Char.ofNat (c.toNat + 32)
  else c

/-- Python `s.lower()` restricted to the alphabet that can occur here. -/
def pyLower (s : String) : String :=
  String.mk (s.data.map lowerChar)

/-- The capture groups of one `RE_INTERVAL` match, as the captured
strings (`m.group(...)` values). -/
structure RawInterval where
  day : String
  zodiac : Option String
  d1 : String
  m1 : String
  t1 : String
  d2 : String
  m2 : String
  t2 : String
deriving DecidableEq, Repr

/-- Try to match `RE_INTERVAL` at the head of the token list:
`(?P<day>\d{1,2}) лунный день (?P<zodiac>[А-Яа-яЁё]+)? (?P<d1>\d{1,2})
(?P<m1>[А-Яа-яЁё]+) (?P<t1>\d{1,2}:\d{2}) [—-] (?P<d2>\d{1,2})
(?P<m2>[А-Яа-яЁё]+) (?P<t2>\d{1,2}:\d{2})`, case-insensitively.
Returns the captures and the number of tokens consumed.  The optional
zodiac group is greedy, as in the regex: a word token after `день` is
taken as the zodiac. -/
def tryMatch : List Tok → Option (RawInterval × Nat)
  | Tok.num day :: Tok.word w1 :: Tok.word w2 :: rest =>
    if day.length ≤ 2 && pyLower w1 = "лунный" && pyLower w2 = "день" then
      match rest with
      | Tok.word z :: Tok.num d1 :: Tok.word m1 :: Tok.time t1 :: Tok.dash ::
        Tok.num d2 :: Tok.word m2 :: Tok.time t2 :: _ =>
          if d1.length ≤ 2 && d2.length ≤ 2 then
            some ({ day := day, zodiac := some z, d1 := d1, m1 := m1, t1 := t1,
                    d2 := d2, m2 := m2, t2 := t2 }, 11)
          else none
      | Tok.num d1 :: Tok.word m1 :: Tok.time t1 :: Tok.dash ::
        Tok.num d2 :: Tok.word m2 :: Tok.time t2 :: _ =>
          if d1.length ≤ 2 && d2.length ≤ 2 then
            some ({ day := day, zodiac := none, d1 := d1, m1 := m1, t1 := t1,
                    d2 := d2, m2 := m2, t2 := t2 }, 10)
          else none
      | _ => none
    else none
  | _ => none

/-- Scan step for `finditer`, structurally recursive on a fuel bound:
each step consumes at least one token, so any fuel at least the list
length is enough. -/
def findMatchesAux : Nat → List Tok → List RawInterval
  | 0, _ => []
  | _, [] => []
  | fuel + 1, t :: rest =>
    match tryMatch (t :: rest) with
    | some (m, k) => m :: findMatchesAux fuel (rest.drop (k - 1))
    | none => findMatchesAux fuel rest

/-- `list(RE_INTERVAL.finditer(text))`: scan left to right; after a match,
resume after its last consumed token (matches are non-overlapping and in
text order). -/
def findMatches (l : List Tok) : List RawInterval :=
  findMatchesAux l.length l

/-- The errors `extract_intervals` can raise (`fastapi.HTTPException`
with status 502): a parse failure carrying the logged excerpt
`text[:1200]` (the HTTP detail is the fixed string "Could not parse
Rambler page (blocked or markup changed)"), or an unknown month word
(HTTP detail "Unknown month word: {word}"). -/
inductive ApiError where
  | parseFailure (excerpt : String)
  | unknownMonth (word : String)
deriving DecidableEq, Repr

/-- `RU_MONTH`: the closed table of the twelve genitive-case Russian
month names (src/main.py lines 50-63). -/
def RU_MONTH : List (String × Nat) :=
  [("января", 1), ("февраля", 2), ("марта", 3), ("апреля", 4),
   ("мая", 5), ("июня", 6), ("июля", 7), ("августа", 8),
   ("сентября", 9), ("октября", 10), ("ноября", 11), ("декабря", 12)]

/-- `_month_num`: `RU_MONTH.get(month_ru.lower())`, raising on a missing
key.  (The table values 1..12 are all truthy, so Python's `if not m`
check is exactly the `None` case.) -/
def _month_num (month_ru : String) : Except ApiError Nat :=
  match RU_MONTH.find? (fun p => p.1 = pyLower month_ru) with
  | some p => .ok p.2
  | none => .error (.unknownMonth month_ru)

/-- `int()` of a digit string. -/
def digitsToNat (s : String) : Nat :=
  s.data.foldl (fun a c => a * 10 + (c.toNat - 48)) 0

/-- `"hh:mm".split(":")`: the digits before and after the first colon.
All call sites pass `\d{1,2}:\d{2}` captures, which have exactly one
colon. -/
def splitTime (s : String) : String × String :=
  match s.data.span (fun c => c ≠ ':') with
  | (a, _ :: b) => (String.mk a, String.mk b)
  | (a, []) => (String.mk a, "")

/-- Encoding of `datetime(year, month, day, hour, minute, tzinfo=MSK)`
that is strictly monotone in the lexicographic component order for the
component ranges `datetime` accepts. -/
def dtKey (year : Int) (month day hour minute : Nat) : Int :=
  (((year * 13 + month) * 32 + day) * 24 + hour) * 60 + minute

/-- `_parse_dt(year, day, month_ru, time_str)`: resolve the month name
and build the MSK instant. -/
def _parse_dt (year : Int) (day : Nat) (month_ru : String) (time_str : String) :
    Except ApiError Int :=
  match _month_num month_ru with
  | .error e => .error e
  | .ok m =>
    let hm := splitTime time_str
    .ok (dtKey year m day (digitsToNat hm.1) (digitsToNat hm.2))

/-- One resolved interval dict as built by the loop body of
`extract_intervals` (`startIso`/`endIso` are embedded as the instant
itself; `startText`/`endText` are the f-strings from the raw captures). -/
structure Interval where
  day : Nat
  zodiac : Option String
  startI : Int
  endI : Int
  startText : String
  endText : String
deriving DecidableEq, Repr

/-- The body of `for m in matches[:4]` in `extract_intervals`: resolve
both endpoints (start first, as in the source) with the query year. -/
def resolveMatch (year : Int) (m : RawInterval) : Except ApiError Interval :=
  match _parse_dt year (digitsToNat m.d1) m.m1 m.t1 with
  | .error e => .error e
  | .ok s =>
    match _parse_dt year (digitsToNat m.d2) m.m2 m.t2 with
    | .error e => .error e
    | .ok e =>
      .ok { day := digitsToNat m.day
            zodiac := m.zodiac
            startI := s
            endI := e
            startText := m.d1 ++ " " ++ m.m1 ++ " " ++ m.t1
            endText := m.d2 ++ " " ++ m.m2 ++ " " ++ m.t2 }

/-- A `for` loop building a list, where the body may raise: the first
raise propagates. -/
def mapE {α β ε : Type} (f : α → Except ε β) : List α → Except ε (List β)
  | [] => .ok []
  | x :: xs =>
    match f x with
    | .error e => .error e
    | .ok y =>
      match mapE f xs with
      | .error e => .error e
      | .ok ys => .ok (y :: ys)

/-- Python `text[:1200]` (slicing by code points). -/
def take1200 (s : String) : String :=
  String.mk (s.data.take 1200)

/-- `extract_intervals` on already-fetched normalized text (the fetch and
the cache around it are modelled separately): find all `RE_INTERVAL`
matches; raise 502 with the logged excerpt `text[:1200]` if there are
none; resolve `matches[:4]`; return `intervals[:2]`. -/
def extract_intervals (year : Int) (text : String) :
    Except ApiError (List Interval) :=
  let ms := findMatches (tokenize text)
  if ms.isEmpty then .error (.parseFailure (take1200 text))
  else
    match mapE (resolveMatch year) (ms.take 4) with
    | .error e => .error e
    | .ok intervals => .ok (intervals.take 2)

/-- The raw-capture view of what `extract_intervals` keeps: `matches[:4]`
for the resolution loop, then `[:2]` of its results — i.e. the first two
occurrences, in text order. -/
def rawTruncated (text : String) : List RawInterval :=
  ((findMatches (tokenize text)).take 4).take 2

/-- The containment test `s <= now < e` of `pick_current`. -/
def inside (it : Interval) (now : Int) : Bool :=
  decide (it.startI ≤ now ∧ now < it.endI)

/-- `pick_current(intervals, now)`: first interval containing `now`;
else the first interval if `now` is before its start; else the last.
`none` models the `IndexError` `parsed[0]` would raise on an empty
list (never reached from `extract_intervals` output). -/
def pick_current (l : List Interval) (now : Int) : Option Interval :=
  match l.find? (fun it => inside it now) with
  | some it => some it
  | none =>
    match l with
    | [] => none
    | x :: xs => if now < x.startI then some x else (x :: xs).getLast?

/-- One of the "удобные строки" lines of `build_payload`. -/
def renderLine (it : Interval) : String :=
  match it.zodiac with
  | some z => toString it.day ++ " лунный день " ++ z ++ " " ++
      it.startText ++ " — " ++ it.endText
  | none => toString it.day ++ " лунный день " ++
      it.startText ++ " — " ++ it.endText

/-- The fields of the `build_payload` response dict that the claims are
about (`date`, `tz`, `nowIso` and `nextSwitchInSeconds` are direct
reformattings of the inputs and of `nextSwitchAt`). -/
structure Payload where
  intervals : List Interval
  current : Interval
  nextSwitchAt : Option Int
  lines : List String
deriving DecidableEq, Repr

/-- `build_payload` after the fetch: extract, pick the current interval,
and set `next_switch = current_end if current_end > now else None`.
The inner `Option` is `pick_current`'s (unreachable) empty-list case. -/
def build_payload (year : Int) (text : String) (now : Int) :
    Except ApiError (Option Payload) :=
  match extract_intervals year text with
  | .error e => .error e
  | .ok intervals =>
    .ok ((pick_current intervals now).map fun current =>
      { intervals := intervals
        current := current
        nextSwitchAt := if now < current.endI then some current.endI else none
        lines := intervals.map renderLine })

/-- `CACHE_TTL_SECONDS = int(os.getenv("CACHE_TTL_SECONDS", str(60*60*24)))`
with the default value. -/
def CACHE_TTL_SECONDS : Int := 60 * 60 * 24

/-- Model of the external `cachetools.TTLCache` used at src/main.py:44:
entries keyed by the `("intervals_iso", date_str)` tuples, each with its
insertion time; an entry is expired once `insertTime + ttl < now`
(`_Link.expired`); `__setitem__` first drops the old entry for the key
and all expired entries, then evicts from the eviction front while over
capacity, then appends the new entry (most recently used last). -/
structure TTLCache where
  entries : List ((String × String) × List Interval × Int)
  ttl : Int
  maxsize : Nat
deriving DecidableEq, Repr

/-- Expiry test of one entry at read/write time `now`. -/
def expiredAt (ttl : Int) (now : Int) (insertTime : Int) : Bool :=
  decide (insertTime + ttl < now)

/-- `cache[k]` guarded by `k in cache`: the stored value unless the entry
is absent or expired (expired reads behave as misses). -/
def TTLCache.get (c : TTLCache) (k : String × String) (now : Int) :
    Option (List Interval) :=
  match c.entries.find? (fun e => e.1 = k) with
  | some e => if expiredAt c.ttl now e.2.2 then none else some e.2.1
  | none => none

/-- `cache[k] = v` at time `now`: replace any entry for `k`, drop expired
entries, evict from the front while the capacity would be exceeded, and
insert the fresh entry last. -/
def TTLCache.put (c : TTLCache) (k : String × String) (v : List Interval)
    (now : Int) : TTLCache :=
  let live := c.entries.filter
    (fun e => !decide (e.1 = k) && !expiredAt c.ttl now e.2.2)
  let trimmed :=
    if c.maxsize ≤ live.length then live.drop (live.length + 1 - c.maxsize)
    else live
  { c with entries := trimmed ++ [(k, v, now)] }

/-- The module-level `cache = TTLCache(maxsize=3000, ttl=CACHE_TTL_SECONDS)`. -/
def cache0 : TTLCache :=
  { entries := [], ttl := CACHE_TTL_SECONDS, maxsize := 3000 }

/-! ## Concrete scenario inputs -/

/-- The §8 Scenario B/C page text: two interval-form occurrences. -/
def txtBC : String :=
  "6 лунный день 24 декабря 11:35 — 25 декабря 11:42 7 лунный день Рыбы 25 декабря 11:42 — 26 декабря 11:49"

/-- Scenario B/C with a third occurrence appended, to exercise the
truncation `min(N, 2)` at `N = 3`. -/
def txt3 : String :=
  txtBC ++ " 8 лунный день 26 декабря 11:49 — 27 декабря 11:55"

/-- The §8 Scenario A transition-form page text. -/
def txtA : String :=
  "До 11:42 — 6-й лунный день. После 11:42 — 7-й лунный день."

/-- A New-Year's-Eve page text whose interval crosses the year boundary. -/
def txtDecJan : String :=
  "30 лунный день 31 декабря 23:50 — 1 января 00:20"

/-- First resolved interval of `txtBC` for query year 2024
(2024-12-24T11:35+03:00 — 2024-12-25T11:42+03:00). -/
def iv1C : Interval :=
  { day := 6, zodiac := none
    startI := dtKey 2024 12 24 11 35, endI := dtKey 2024 12 25 11 42
    startText := "24 декабря 11:35", endText := "25 декабря 11:42" }

/-- Second resolved interval of `txtBC` for query year 2024. -/
def iv2C : Interval :=
  { day := 7, zodiac := some "Рыбы"
    startI := dtKey 2024 12 25 11 42, endI := dtKey 2024 12 26 11 49
    startText := "25 декабря 11:42", endText := "26 декабря 11:49" }

/-- Scenario C reference instant 2024-12-25T09:00+03:00. -/
def nowC : Int := dtKey 2024 12 25 9 0

/-- The payload Scenario C produces. -/
def payloadC : Payload :=
  { intervals := [iv1C, iv2C]
    current := iv1C
    nextSwitchAt := some (dtKey 2024 12 25 11 42)
    lines := ["6 лунный день 24 декабря 11:35 — 25 декабря 11:42",
              "7 лунный день Рыбы 25 декабря 11:42 — 26 декабря 11:49"] }

/-! ## Helper lemmas -/

/-- A successful `mapE` run has the input's length and resolves
elementwise, in order. -/
lemma mapE_ok {α β ε : Type} (f : α → Except ε β) :
    ∀ (xs : List α) (ys : List β), mapE f xs = .ok ys →
      ys.length = xs.length ∧
      ∀ i (h1 : i < xs.length) (h2 : i < ys.length), f xs[i] = .ok ys[i] := by
  intro xs
  induction xs with
  | nil =>
    intro ys h
    simp only [mapE] at h
    cases h
    exact ⟨rfl, by intro i h1 h2; simp at h1⟩
  | cons x xs ih =>
    intro ys h
    simp only [mapE] at h
    cases hx : f x with
    | error e => rw [hx] at h; cases h
    | ok y =>
      rw [hx] at h
      cases hxs : mapE f xs with
      | error e => rw [hxs] at h; cases h
      | ok ys' =>
        rw [hxs] at h
        cases h
        obtain ⟨hlen, hpt⟩ := ih ys' hxs
        refine ⟨by simp [hlen], ?_⟩
        intro i h1 h2
        match i with
        | 0 => simpa using hx
        | i + 1 =>
          simp only [List.getElem_cons_succ]
          exact hpt i (by simpa using h1) (by simpa using h2)

/-- Decompose a successful `extract_intervals` run into its stages. -/
lemma extract_ok_structure (year : Int) (text : String) (l : List Interval)
    (hok : extract_intervals year text = .ok l) :
    ¬ (findMatches (tokenize text)).isEmpty ∧
    ∃ ivs, mapE (resolveMatch year) ((findMatches (tokenize text)).take 4) = .ok ivs ∧
      l = ivs.take 2 := by
  unfold extract_intervals at hok
  by_cases he : (findMatches (tokenize text)).isEmpty
  · rw [if_pos he] at hok
    cases hok
  · rw [if_neg he] at hok
    refine ⟨he, ?_⟩
    cases hm : mapE (resolveMatch year) ((findMatches (tokenize text)).take 4) with
    | error e => rw [hm] at hok; cases hok
    | ok ivs =>
      rw [hm] at hok
      cases hok
      exact ⟨ivs, rfl, rfl⟩

/-- Full case analysis of `pick_current` on a non-empty list: it always
returns an element of the list; a containing element when one exists;
otherwise the head when `now` precedes its start, and the last element
otherwise. -/
lemma pick_current_cases (l : List Interval) (now : Int) (h : l ≠ []) :
    (pick_current l now).isSome = true ∧
    ∀ it, pick_current l now = some it →
      it ∈ l ∧
      ((∃ j ∈ l, inside j now = true) → inside it now = true) ∧
      ((∀ j ∈ l, inside j now = false) →
        ∀ f, l.head? = some f →
          (now < f.startI → it = f) ∧ (¬ now < f.startI → l.getLast? = some it)) := by
  cases hf : l.find? (fun it => inside it now) with
  | some it0 =>
    have hins : inside it0 now = true := by
      have := List.find?_some hf
      simpa using this
    have hpick : pick_current l now = some it0 := by
      unfold pick_current
      rw [hf]
    rw [hpick]
    refine ⟨rfl, ?_⟩
    intro it hit
    cases hit
    refine ⟨List.mem_of_find?_eq_some hf, fun _ => hins, ?_⟩
    intro hall
    have := hall it0 (List.mem_of_find?_eq_some hf)
    rw [hins] at this
    cases this
  | none =>
    obtain ⟨x, xs, rfl⟩ := List.exists_cons_of_ne_nil h
    have hpick : pick_current (x :: xs) now =
        if now < x.startI then some x else (x :: xs).getLast? := by
      unfold pick_current
      rw [hf]
    have hnone : ∀ j ∈ x :: xs, inside j now = false := by
      intro j hj
      have := List.find?_eq_none.mp hf j hj
      simpa using this
    by_cases hlt : now < x.startI
    · rw [hpick, if_pos hlt]
      refine ⟨rfl, ?_⟩
      intro it hit
      cases hit
      refine ⟨List.mem_cons_self x xs, ?_, ?_⟩
      · rintro ⟨j, hj, hins⟩
        rw [hnone j hj] at hins
        cases hins
      · intro _ f hfh
        simp only [List.head?_cons, Option.some.injEq] at hfh
        cases hfh
        exact ⟨fun _ => rfl, fun hn => absurd hlt hn⟩
    · rw [hpick, if_neg hlt]
      have hgl : (x :: xs).getLast? = some ((x :: xs).getLast (List.cons_ne_nil x xs)) :=
        List.getLast?_eq_getLast_of_ne_nil _
      rw [hgl]
      refine ⟨rfl, ?_⟩
      intro it hit
      cases hit
      refine ⟨List.getLast_mem _, ?_, ?_⟩
      · rintro ⟨j, hj, hins⟩
        rw [hnone j hj] at hins
        cases hins
      · intro _ f hfh
        simp only [List.head?_cons, Option.some.injEq] at hfh
        cases hfh
        exact ⟨fun hl => absurd hl hlt, fun _ => hgl.symm⟩

/-- In the entry list built by `TTLCache.put`, the first (and only) entry
for the written key is the fresh one. -/
lemma put_find?_key (c : TTLCache) (k : String × String) (v : List Interval)
    (now : Int) :
    ((c.put k v now).entries).find? (fun e => e.1 = k) = some (k, v, now) := by
  unfold TTLCache.put
  have hlive : ∀ e ∈ c.entries.filter
      (fun e => !decide (e.1 = k) && !expiredAt c.ttl now e.2.2),
      ¬ (decide (e.1 = k) = true) := by
    intro e he
    have := (List.mem_filter.mp he).2
    simp only [Bool.and_eq_true, Bool.not_eq_true'] at this
    simp [this.1]
  have htrim : ∀ e ∈ (if c.maxsize ≤ (c.entries.filter
        (fun e => !decide (e.1 = k) && !expiredAt c.ttl now e.2.2)).length
      then (c.entries.filter
        (fun e => !decide (e.1 = k) && !expiredAt c.ttl now e.2.2)).drop
          ((c.entries.filter
            (fun e => !decide (e.1 = k) && !expiredAt c.ttl now e.2.2)).length + 1
              - c.maxsize)
      else c.entries.filter
        (fun e => !decide (e.1 = k) && !expiredAt c.ttl now e.2.2)),
      ¬ (decide (e.1 = k) = true) := by
    intro e he
    split at he
    · exact hlive e (List.mem_of_mem_drop he)
    · exact hlive e he
  have hnone := List.find?_eq_none.mpr htrim
  simp only []
  rw [List.find?_append, hnone, Option.none_or]
  simp [List.find?_cons]

/-! ## Claim theorems -/

/-- C1: for every normalized text in which the interval-form pattern
occurs N ≥ 1 times, the extractor keeps exactly `min(N, 2)` raw
intervals — the first two occurrences in text order (`matches[:4]`
followed by `intervals[:2]`) — and a successful `extract_intervals` run
returns exactly that many resolved intervals, the i-th resolved from the
i-th occurrence. -/
theorem extract_first_two (year : Int) (text : String)
    (h : 1 ≤ (findMatches (tokenize text)).length) :
    rawTruncated text = (findMatches (tokenize text)).take 2 ∧
    (rawTruncated text).length = min (findMatches (tokenize text)).length 2 ∧
    ∀ l, extract_intervals year text = .ok l →
      l.length = min (findMatches (tokenize text)).length 2 ∧
      ∀ i (h1 : i < l.length) (h2 : i < (findMatches (tokenize text)).length),
        resolveMatch year (findMatches (tokenize text))[i] = .ok l[i] := by
  refine ⟨?_, ?_, ?_⟩
  · unfold rawTruncated
    rw [List.take_take]
    norm_num
  · unfold rawTruncated
    rw [List.take_take]
    rw [List.length_take]
    omega
  · intro l hok
    obtain ⟨-, ivs, hmap, rfl⟩ := extract_ok_structure year text l hok
    obtain ⟨hlen, hpt⟩ := mapE_ok (resolveMatch year) _ ivs hmap
    rw [List.length_take] at hlen
    constructor
    · rw [List.length_take]
      omega
    · intro i h1 h2
      rw [List.length_take] at h1
      have hi2 : i < 2 := by omega
      have hiivs : i < ivs.length := by omega
      have hi4 : i < ((findMatches (tokenize text)).take 4).length := by
        rw [List.length_take]
        omega
      have := hpt i hi4 hiivs
      rw [List.getElem_take] at this
      rw [List.getElem_take]
      exact this

/-- C1 witness: a text with three pattern occurrences keeps exactly the
first two. -/
theorem extract_first_two_witness :
    rawTruncated txt3 = (findMatches (tokenize txt3)).take 2 ∧
    (rawTruncated txt3).length = 2 := by
  have h := extract_first_two 2024 txt3 (by decide)
  exact ⟨h.1, h.2.1.trans (by decide)⟩

/-- C2: on a non-empty interval list, `pick_current` always returns
exactly one interval of the list, chosen by the ordered rule — a
containing interval if one exists, else the first when `now` precedes its
start, else the last. -/
theorem pick_current_spec (l : List Interval) (now : Int) (h : l ≠ []) :
    (pick_current l now).isSome = true ∧
    ∀ it, pick_current l now = some it →
      it ∈ l ∧
      ((∃ j ∈ l, inside j now = true) → inside it now = true) ∧
      ((∀ j ∈ l, inside j now = false) →
        ∀ f, l.head? = some f →
          (now < f.startI → it = f) ∧ (¬ now < f.startI → l.getLast? = some it)) :=
  pick_current_cases l now h

/-- C2 witness: Scenario C's list and instant select the containing
first interval. -/
theorem pick_current_spec_witness :
    (pick_current [iv1C, iv2C] nowC).isSome = true ∧ iv1C ∈ [iv1C, iv2C] := by
  have h := pick_current_spec [iv1C, iv2C] nowC (by decide)
  exact ⟨h.1, (h.2 iv1C (by decide)).1⟩

/-- C3 (code bug evidence): on a New-Year's-Eve page, `extract_intervals`
resolves both endpoints with the query year (`d.year` is passed to
`_parse_dt` for `d1` and `d2` alike), so the December→January interval
comes out with `endInstant` eleven months before `startInstant`,
violating the `startInstant < endInstant` invariant. -/
theorem year_wraparound_inverts_interval :
    extract_intervals 2024 txtDecJan = .ok
      [{ day := 30, zodiac := none
         startI := dtKey 2024 12 31 23 50
         endI := dtKey 2024 1 1 0 20
         startText := "31 декабря 23:50", endText := "1 января 00:20" }] ∧
    dtKey 2024 1 1 0 20 < dtKey 2024 12 31 23 50 := by
  decide

/-- C4 counterexample: the transition-form Scenario A text makes
`extract_intervals` raise the 502 parse failure — there is no
transition-form strategy in the code, so no `Transition` value is ever
produced. -/
theorem transition_text_fails :
    extract_intervals 2024 txtA = .error (ApiError.parseFailure txtA) := by
  decide

/-- C4 amended: the extractor supports only the interval-form strategy;
transition-form text (which contains no interval-form occurrence) raises
a ParseFailure for every query year instead of yielding a transition
value. -/
theorem transition_text_fails_all_years :
    ∀ year : Int, extract_intervals year txtA = .error (ApiError.parseFailure txtA) := by
  intro year
  have hm : findMatches (tokenize txtA) = [] := by decide
  have ht : take1200 txtA = txtA := by decide
  simp [extract_intervals, hm, ht]

/-- C5: in a successful payload, the current interval is the one
`pick_current` selects, and `nextSwitch` is its end instant when that end
is strictly in the future, absent otherwise. -/
theorem build_payload_next_switch (year : Int) (text : String) (now : Int)
    (p : Payload) (h : build_payload year text now = .ok (some p)) :
    pick_current p.intervals now = some p.current ∧
    (now < p.current.endI → p.nextSwitchAt = some p.current.endI) ∧
    (¬ now < p.current.endI → p.nextSwitchAt = none) := by
  cases hex : extract_intervals year text with
  | error e =>
    unfold build_payload at h
    rw [hex] at h
    cases h
  | ok ivs =>
    have heq : build_payload year text now =
        .ok ((pick_current ivs now).map fun current =>
          { intervals := ivs
            current := current
            nextSwitchAt := if now < current.endI then some current.endI else none
            lines := ivs.map renderLine }) := by
      unfold build_payload
      rw [hex]
    rw [heq] at h
    cases h' : pick_current ivs now with
    | none =>
      rw [h'] at h
      simp at h
    | some cur =>
      rw [h'] at h
      simp only [Option.map_some', Except.ok.injEq, Option.some.injEq] at h
      cases h
      refine ⟨h', ?_, ?_⟩
      · intro hfut
        show (if now < cur.endI then some cur.endI else none) = some cur.endI
        rw [if_pos hfut]
      · intro hpast
        show (if now < cur.endI then some cur.endI else none) = none
        rw [if_neg hpast]

/-- C5 witness: Scenario C — `now` = 2024-12-25T09:00+03:00 selects the
day-6 interval and `nextSwitch` = 2024-12-25T11:42+03:00. -/
theorem build_payload_next_switch_witness :
    pick_current payloadC.intervals nowC = some payloadC.current ∧
    payloadC.nextSwitchAt = some payloadC.current.endI := by
  have h := build_payload_next_switch 2024 txtBC nowC payloadC (by decide)
  exact ⟨h.1, h.2.1 (by decide)⟩

/-- C6 counterexample: on empty normalized text no rule matches and the
extractor raises ParseFailure, but the diagnostic excerpt it carries
(`text[:1200]`) is empty, not non-empty. -/
theorem parse_failure_empty_excerpt :
    extract_intervals 2024 "" = .error (ApiError.parseFailure "") := by
  decide

/-- C6 amended: whenever no extraction rule matches, `extract_intervals`
raises a ParseFailure (never a success and never a silent empty list)
whose diagnostic excerpt is the first 1200 characters of the source
text — non-empty whenever the text itself is non-empty (the excerpt is
emitted to the log; the caller-visible HTTP detail is a fixed message). -/
theorem no_match_parse_failure (year : Int) (text : String)
    (h : findMatches (tokenize text) = []) :
    extract_intervals year text = .error (.parseFailure (take1200 text)) ∧
    (text.data ≠ [] → (take1200 text).data ≠ []) := by
  constructor
  · simp [extract_intervals, h]
  · intro hne
    simp only [take1200]
    simp [List.take_eq_nil_iff, hne]

/-- C6 witness: a non-matching, non-empty text raises with the non-empty
excerpt. -/
theorem no_match_parse_failure_witness :
    extract_intervals 2024 "нет данных" =
      .error (.parseFailure (take1200 "нет данных")) ∧
    (take1200 "нет данных").data ≠ [] := by
  have h := no_match_parse_failure 2024 "нет данных" (by decide)
  exact ⟨h.1, h.2 (by decide)⟩

/-- C7 counterexample: `"Декабря"` is not one of the twelve table keys,
yet `_month_num` resolves it to 12 (the lookup lower-cases its argument)
instead of raising. -/
theorem month_lookup_case_insensitive :
    (∀ p ∈ RU_MONTH, p.1 ≠ "Декабря") ∧ _month_num "Декабря" = .ok 12 := by
  decide

/-- C7 amended: month-name resolution lower-cases the token and looks it
up in the closed twelve-entry table of genitive-case Russian month names:
every table name maps to its month number in 1–12, and every token whose
lower-cased form is not in the table raises a fatal ParseFailure rather
than returning any instant. -/
theorem month_table_closed :
    (∀ p ∈ RU_MONTH, _month_num p.1 = .ok p.2 ∧ 1 ≤ p.2 ∧ p.2 ≤ 12) ∧
    RU_MONTH.length = 12 ∧
    ∀ w : String, (∀ p ∈ RU_MONTH, p.1 ≠ pyLower w) →
      _month_num w = .error (.unknownMonth w) := by
  refine ⟨by decide, by decide, ?_⟩
  intro w hw
  unfold _month_num
  have hnone : RU_MONTH.find? (fun p => p.1 = pyLower w) = none := by
    refine List.find?_eq_none.mpr ?_
    intro p hp
    simp [hw p hp]
  rw [hnone]

/-- C7 witness: an in-table name resolves; an out-of-table word raises. -/
theorem month_table_closed_witness :
    (_month_num "мая" = .ok 5 ∧ 1 ≤ 5 ∧ 5 ≤ 12) ∧
    _month_num "Спутника" = .error (.unknownMonth "Спутника") :=
  ⟨month_table_closed.1 ("мая", 5) (by decide),
   month_table_closed.2.2 "Спутника" (by decide)⟩

/-- C8: cache round-trip — `put(k, v)` followed by `get(k)` before the
TTL has elapsed returns exactly `v` (the put itself never evicts the key
it just inserted, so no capacity eviction can have touched `k`). -/
theorem cache_roundtrip (c : TTLCache) (k : String × String)
    (v : List Interval) (now now' : Int) (h : ¬ now + c.ttl < now') :
    (c.put k v now).get k now' = some v := by
  unfold TTLCache.get
  rw [put_find?_key]
  simp [TTLCache.put, expiredAt, h]

/-- C8 witness: an immediate read-back from the module cache. -/
theorem cache_roundtrip_witness :
    (cache0.put ("intervals_iso", "2024-12-24") [iv1C] 0).get
      ("intervals_iso", "2024-12-24") 60 = some [iv1C] :=
  cache_roundtrip cache0 ("intervals_iso", "2024-12-24") [iv1C] 0 60 (by decide)

/-- C9: cache expiry — the default TTL is 86400 seconds, and a `get(k)`
strictly after the TTL has elapsed since the corresponding `put(k, v)`
returns absent rather than the stale value. -/
theorem cache_expiry :
    CACHE_TTL_SECONDS = 86400 ∧
    ∀ (c : TTLCache) (k : String × String) (v : List Interval) (now now' : Int),
      now + c.ttl < now' → (c.put k v now).get k now' = none := by
  refine ⟨by decide, ?_⟩
  intro c k v now now' h
  unfold TTLCache.get
  rw [put_find?_key]
  simp [TTLCache.put, expiredAt, h]

/-- C9 witness: a read one second past the default TTL misses. -/
theorem cache_expiry_witness :
    (cache0.put ("intervals_iso", "2024-12-24") [iv1C] 0).get
      ("intervals_iso", "2024-12-24") 86401 = none :=
  cache_expiry.2 cache0 ("intervals_iso", "2024-12-24") [iv1C] 0 86401 (by decide)

/-- C10: every successful extraction returns between one and two
intervals, so `pick_current` (whose `parsed[0]`/`parsed[-1]` accesses
fail only on an empty list) always succeeds on extraction output and
returns an element of the list. -/
theorem extract_ok_nonempty (year : Int) (text : String) (l : List Interval)
    (hok : extract_intervals year text = .ok l) :
    l ≠ [] ∧ l.length ≤ 2 ∧
    ∀ now : Int, (pick_current l now).isSome = true ∧
      ∀ it, pick_current l now = some it → it ∈ l := by
  obtain ⟨hne, ivs, hmap, rfl⟩ := extract_ok_structure year text l hok
  obtain ⟨hlen, -⟩ := mapE_ok (resolveMatch year) _ ivs hmap
  rw [List.length_take] at hlen
  have hN : 1 ≤ (findMatches (tokenize text)).length := by
    cases hfm : findMatches (tokenize text) with
    | nil => rw [hfm] at hne; simp at hne
    | cons a as => simp [hfm]
  have hpos : 0 < (ivs.take 2).length := by
    rw [List.length_take]
    omega
  have hne2 : ivs.take 2 ≠ [] := List.ne_nil_of_length_pos hpos
  refine ⟨hne2, ?_, ?_⟩
  · rw [List.length_take]
    omega
  · intro now
    have h := pick_current_cases (ivs.take 2) now hne2
    exact ⟨h.1, fun it hit => (h.2 it hit).1⟩

/-- C10 witness: the Scenario B/C text extracts to a two-element list on
which the selector succeeds. -/
theorem extract_ok_nonempty_witness :
    ([iv1C, iv2C] : List Interval) ≠ [] ∧
    (pick_current [iv1C, iv2C] nowC).isSome = true := by
  have h := extract_ok_nonempty 2024 txtBC [iv1C, iv2C] (by decide)
  exact ⟨h.1, (h.2.2 nowC).1⟩

end MoonApi
